import Mathlib

/-!
Verification of the OpenAPI document generator in `src/swagger/swagger.js`
(node-red-openapi-generator).  JavaScript strings are modelled as `List Char`
(with `String` wrappers where convenient), JS objects with a fixed key set as
structures, string-keyed JS objects as insertion-ordered association lists,
`undefined`-able values as `Option`, and thrown exceptions as `Except`.
-/

namespace Swagger

/-- JS `\w` character class (ASCII letters, digits, underscore), as used by
the route regex `/\/:\w*/g`. -/
def wordChar (c : Char) : Bool := c.isAlphanum || c = '_'

/-- Source `convToSwaggerPath = (x) => `/{${x.substring(2)}}``: turns one regex match
`/:name` into `/{name}`. -/
def convToSwaggerPath (x : List Char) : List Char :=
  '/' :: '{' :: (x.drop 2 ++ ['}'])

/-- Models `url.replace(regexColons, convToSwaggerPath)` with
`regexColons = /\/:\w*/g`: scan left to right; at each occurrence of `/:`
greedily take the following word characters as the match and replace it via
`convToSwaggerPath`; other characters are copied. -/
def replaceColons : List Char → List Char
  | [] => []
  | [c] => [c]
  | c₁ :: c₂ :: rest =>
    if c₁ = '/' ∧ c₂ = ':' then
      convToSwaggerPath ('/' :: ':' :: rest.takeWhile wordChar)
        ++ replaceColons (rest.dropWhile wordChar)
    else
      c₁ :: replaceColons (c₂ :: rest)
termination_by l => l.length
decreasing_by
  · simp only [List.length_cons]
    have h := (List.dropWhile_sublist (l := rest) (p := wordChar)).length_le
    omega
  · simp only [List.length_cons]; omega

/-- Source `ensureLeadingSlash = (url) => (url.startsWith('/') ? url : '/' + url)`. -/
def ensureLeadingSlash (url : List Char) : List Char :=
  if url.head? = some '/' then url else '/' :: url

/-- Source `stripTerminalSlash = (url) => (url.length > 1 && url.endsWith('/') ?
url.slice(0, -1) : url)`. -/
def stripTerminalSlash (url : List Char) : List Char :=
  if 1 < url.length ∧ url.getLast? = some '/' then url.dropLast else url

/-- The endpoint computation of the route loop:
`stripTerminalSlash(ensureLeadingSlash(url.replace(regexColons, convToSwaggerPath)))`. -/
def endPointOf (url : List Char) : List Char :=
  stripTerminalSlash (ensureLeadingSlash (replaceColons url))

/-- The composed normalization applied after parameter substitution
(claim C2's `stripTerminalSlash(ensureLeadingSlash(p))`). -/
def normalizePath (p : List Char) : List Char :=
  stripTerminalSlash (ensureLeadingSlash p)

/-- Spec-side notion: the colon parameters `/:name` of a URL template, in
order (same scan the replacement regex performs). -/
def colonParams : List Char → List (List Char)
  | [] => []
  | [_] => []
  | c₁ :: c₂ :: rest =>
    if c₁ = '/' ∧ c₂ = ':' then
      rest.takeWhile wordChar :: colonParams (rest.dropWhile wordChar)
    else
      colonParams (c₂ :: rest)
termination_by l => l.length
decreasing_by
  · simp only [List.length_cons]
    have h := (List.dropWhile_sublist (l := rest) (p := wordChar)).length_le
    omega
  · simp only [List.length_cons]; omega

/-- Spec-side notion: the brace parameters `/{name}` of an output path, in
order. -/
def braceParams : List Char → List (List Char)
  | [] => []
  | [_] => []
  | c₁ :: c₂ :: rest =>
    if c₁ = '/' ∧ c₂ = '{' ∧ (rest.dropWhile wordChar).head? = some '}' then
      rest.takeWhile wordChar :: braceParams (rest.dropWhile wordChar).tail
    else if c₁ = '/' ∧ c₂ = '{' then
      braceParams rest
    else
      braceParams (c₂ :: rest)
termination_by l => l.length
decreasing_by
  · have h₁ := (List.dropWhile_sublist (l := rest) (p := wordChar)).length_le
    have h₂ : (List.dropWhile wordChar rest).tail.length
        ≤ (List.dropWhile wordChar rest).length := by
      cases List.dropWhile wordChar rest <;> simp
    simp only [List.length_cons]
    omega
  · simp only [List.length_cons]; omega
  · simp only [List.length_cons]; omega

/-- Spec-side notion: does the string end with (at least) two slashes? -/
def endsWithDoubleSlash (p : List Char) : Bool :=
  decide (p.getLast? = some '/' ∧ p.dropLast.getLast? = some '/')

/-- Spec-side notion: does the path still contain the framework's colon
parameter syntax, i.e. a `/:` segment start? -/
def hasColonParamMarker : List Char → Bool
  | [] => false
  | [_] => false
  | c₁ :: c₂ :: rest =>
    if c₁ = '/' ∧ c₂ = ':' then true else hasColonParamMarker (c₂ :: rest)

/-- String-level endpoint conversion, as used for the output path keys. -/
def endPointStr (url : String) : String :=
  ⟨endPointOf url.data⟩

/-- A JSON-like value, for schema objects and other data copied verbatim. -/
inductive JsonValue where
  | null
  | bool (b : Bool)
  | num (n : Int)
  | str (s : String)
  | arr (elems : List JsonValue)
  | obj (fields : List (String × JsonValue))

/-- JavaScript truthiness of a value. -/
def jsTruthy : JsonValue → Bool
  | .null => false
  | .bool b => b
  | .num n => n != 0
  | .str s => s != ""
  | .arr _ => true
  | .obj _ => true

/-- JavaScript `x || d` for a possibly-undefined string `x`: the default is
taken when `x` is undefined or the empty string (falsy). -/
def jsOrString (x : Option String) (d : String) : String :=
  match x with
  | none => d
  | some s => if s = "" then d else s

/-- Truthiness of a possibly-undefined string. -/
def truthyStr : Option String → Bool
  | none => false
  | some s => s != ""

/-- JS `String.prototype.toUpperCase()` on the ASCII method names used
here. -/
def toUpperCase (s : String) : String := ⟨s.data.map Char.toUpper⟩

/-- JS `String.prototype.toLowerCase()` on the ASCII method names used
here. -/
def toLowerCase (s : String) : String := ⟨s.data.map Char.toLower⟩

/-- Source `trimAll = (ary) => ary.map((x) => x.trim())`. -/
def trimAll (ary : List String) : List String := ary.map (·.trim)

/-- Source `csvStrToArray = (csvStr) => (csvStr ? trimAll(csvStr.split(',')) : [])`. -/
def csvStrToArray (csvStr : String) : List String :=
  if csvStr = "" then [] else trimAll (csvStr.splitOn ",")

/-- Source `getStyleFromCollectionFormat`: lookup in the literal `formatMap`
falling back to `'simple'` when absent. -/
def getStyleFromCollectionFormat (collectionFormat : String) : String :=
  if collectionFormat = "csv" then "simple"
  else if collectionFormat = "ssv" then "spaceDelimited"
  else if collectionFormat = "tsv" then "pipeDelimited"
  else if collectionFormat = "pipes" then "pipeDelimited"
  else if collectionFormat = "multi" then "form"
  else "simple"

/-- A source parameter spec as read from the documentation record (legacy
`type`/`format`/`items`/`collectionFormat` fields next to an optional
explicit `schema`). -/
structure ParameterSpec where
  name : String
  in_ : String
  required : Option Bool
  description : Option String
  schema : Option JsonValue
  type : Option String
  format : Option String
  items : Option JsonValue
  collectionFormat : Option String

/-- The emitted operation parameter object `paramDef`. -/
structure ParamDef where
  name : String
  in_ : String
  required : Bool
  description : String
  schema : Option JsonValue
  style : Option String
  explode : Option Bool

/-- The `.map((param) => {...})` body building a `paramDef` from a source
parameter spec. -/
def buildParamDef (param : ParameterSpec) : ParamDef :=
  let base : ParamDef :=
    { name := param.name
      in_ := param.in_
      required := param.required.getD false
      description := param.description.getD ""
      schema := none
      style := none
      explode := none }
  if param.schema.any jsTruthy then
    { base with schema := param.schema }
  else if truthyStr param.type then
    let t := param.type.getD ""
    let schemaFields :=
      [("type", JsonValue.str t)]
        ++ (if truthyStr param.format then
              [("format", JsonValue.str (param.format.getD ""))] else [])
        ++ (if t = "array" ∧ param.items.any jsTruthy then
              [("items", param.items.getD JsonValue.null)] else [])
    let withSchema := { base with schema := some (JsonValue.obj schemaFields) }
    if truthyStr param.collectionFormat ∧ t = "array" then
      { withSchema with
          style := some (getStyleFromCollectionFormat (param.collectionFormat.getD ""))
          explode := some (param.collectionFormat.getD "" == "multi") }
    else withSchema
  else base

/-- A source response spec. -/
structure ResponseSpec where
  description : Option String
  schema : Option JsonValue

/-- The emitted response object. -/
structure ResponseOut where
  description : String
  content : Option JsonValue

/-- The loop body of `Object.keys(responses).forEach(...)`: description with
falsy fallback, plus `content: {"application/json": {schema}}` when the
source response has a truthy `schema`. -/
def buildResponse (r : ResponseSpec) : ResponseOut :=
  { description := jsOrString r.description "No description"
    content :=
      if r.schema.any jsTruthy then
        some (JsonValue.obj
          [("application/json", JsonValue.obj [("schema", r.schema.getD JsonValue.null)])])
      else none }

/-- A source request body. -/
structure RequestBody where
  content : Option (List (String × JsonValue))

/-- The fields the generator reads off a resolved `swagger-doc` node
(`undefined` fields modelled as `none`; the handler's destructuring defaults
are applied at use sites). -/
structure SwaggerDocNode where
  summary : Option String
  description : Option String
  tags : Option String
  deprecated : Option Bool
  parameters : Option (List ParameterSpec)
  requestBody : Option RequestBody
  responses : Option (List (String × ResponseSpec))

/-- The emitted OpenAPI operation object. -/
structure Operation where
  summary : String
  description : String
  tags : List String
  deprecated : Bool
  parameters : List ParamDef
  requestBody : Option RequestBody
  responses : List (String × ResponseOut)

/-- The `operation` object built for one documented route, including the
summary/description/tags/deprecated defaulting, parameter mapping over
route-level then global parameters, the request-body inclusion test and the
response processing with the `200` fallback. -/
def buildOperation (additionalParams : List ParameterSpec) (name : Option String)
    (method : String) (endPoint : String) (docNode : SwaggerDocNode) : Operation :=
  let responses₀ := (docNode.responses.getD []).map (fun p => (p.1, buildResponse p.2))
  { summary :=
      match docNode.summary with
      | some s => s
      | none => jsOrString name (toUpperCase method ++ " " ++ endPoint)
    description := docNode.description.getD ""
    tags := csvStrToArray (docNode.tags.getD "")
    deprecated := docNode.deprecated.getD false
    parameters := (docNode.parameters.getD [] ++ additionalParams).map buildParamDef
    requestBody :=
      match docNode.requestBody with
      | some rb => if (rb.content.getD []).isEmpty then none else some rb
      | none => none
    responses :=
      if responses₀.isEmpty then
        [("200", { description := "Successful response", content := none })]
      else responses₀ }

/-- A server entry of the `servers` array. -/
structure Server where
  url : String
  description : String

/-- The `info` object of the template. -/
structure Info where
  title : String
  version : String
  description : String

/-- The `components` object; each category key may be absent (deleted). -/
structure Components where
  schemas : Option (List (String × JsonValue))
  responses : Option (List (String × JsonValue))
  parameters : Option (List (String × JsonValue))
  securitySchemes : Option (List (String × JsonValue))

/-- The paths mapping: path key to lowercase-method key to operation, in
insertion order. -/
abbrev Paths := List (String × List (String × Operation))

/-- The generated OpenAPI document; `components` and `tags` may be deleted
by the cleanup pass. -/
structure OpenAPIDoc where
  openapi : String
  info : Info
  servers : List Server
  paths : Paths
  components : Option Components
  tags : Option (List JsonValue)

/-- Source `DEFAULT_TEMPLATE` from the top of the module. -/
def DEFAULT_TEMPLATE : OpenAPIDoc :=
  { openapi := "3.0.0"
    info :=
      { title := "My Node-RED API"
        version := "1.0.0"
        description := "A sample API" }
    servers := [{ url := "http://localhost:1880/", description := "Local server" }]
    paths := []
    components := some { schemas := some [], responses := some [], parameters := some [],
                         securitySchemes := some [] }
    tags := some [] }

/-- A user-supplied `RED.settings.openapi.template` override: any provided
top-level key replaces the default wholesale (shallow merge). -/
structure TemplateOverride where
  openapi : Option String
  info : Option Info
  servers : Option (List Server)
  paths : Option Paths
  components : Option Components
  tags : Option (List JsonValue)

/-- The all-absent override, i.e. the destructuring default `template = {}`. -/
def emptyTemplate : TemplateOverride :=
  { openapi := none, info := none, servers := none, paths := none,
    components := none, tags := none }

/-- Models `{ ...DEFAULT_TEMPLATE, ...template }`: shallow top-level merge. -/
def mergeTemplate (template : TemplateOverride) : OpenAPIDoc :=
  { openapi := template.openapi.getD DEFAULT_TEMPLATE.openapi
    info := template.info.getD DEFAULT_TEMPLATE.info
    servers := template.servers.getD DEFAULT_TEMPLATE.servers
    paths := template.paths.getD DEFAULT_TEMPLATE.paths
    components := (template.components.map some).getD DEFAULT_TEMPLATE.components
    tags := (template.tags.map some).getD DEFAULT_TEMPLATE.tags }

/-- The relevant slice of `RED.settings`, with the handler's destructuring
defaults already expressed through `emptyTemplate`/`[]` at use sites. -/
structure Settings where
  httpNodeRoot : Option String
  template : TemplateOverride
  additionalParams : List ParameterSpec

/-- Models `RED.settings` with nothing configured. -/
def defaultSettings : Settings :=
  { httpNodeRoot := none, template := emptyTemplate, additionalParams := [] }

/-- Models `url.replace(/\/$/, '')`: strip a single trailing slash if present. -/
def replaceTrailingSlash (url : String) : String :=
  if url.data.getLast? = some '/' then ⟨url.data.dropLast⟩ else url

/-- The initialization of `resp`: template merge, `resp.paths = {}`, and the
server-URL adjustment when `httpNodeRoot` is truthy and not `'/'`. -/
def initResp (settings : Settings) : OpenAPIDoc :=
  let resp := { mergeTemplate settings.template with paths := ([] : Paths) }
  match settings.httpNodeRoot with
  | some root =>
    if root ≠ "" ∧ root ≠ "/" then
      { resp with
          servers := resp.servers.map (fun server =>
            { server with url := replaceTrailingSlash server.url ++ root }) }
    else resp
  | none => resp

/-- The fields the route loop reads off a registry node. -/
structure Node where
  name : Option String
  type : String
  method : Option String
  swaggerDoc : Option String
  url : Option String

/-- JS object assignment `m[k] = v` on a string-keyed object: update in place
if the key exists, else append. -/
def setKey {α : Type} (m : List (String × α)) (k : String) (v : α) : List (String × α) :=
  if m.any (fun p => p.1 == k) then
    m.map (fun p => if p.1 == k then (k, v) else p)
  else m ++ [(k, v)]

/-- One iteration of `RED.nodes.eachNode`: skip nodes that are not documented
`http in` routes or whose `swagger-doc` reference does not resolve; otherwise
convert the endpoint and insert the built operation at
`paths[endPoint][method.toLowerCase()]`.  Accessing `url`/`method` on a node
that lacks them throws (`Except.error`). -/
def processNode (additionalParams : List ParameterSpec)
    (docs : List (String × SwaggerDocNode)) (paths : Paths) (node : Node) :
    Except Unit Paths :=
  if node.type = "http in" ∧ truthyStr node.swaggerDoc then
    match docs.lookup (node.swaggerDoc.getD "") with
    | some docNode => do
      let url ← node.url.elim (Except.error ()) Except.ok
      let endPoint := endPointStr url
      let method ← node.method.elim (Except.error ()) Except.ok
      let operation := buildOperation additionalParams node.name method endPoint docNode
      let inner := setKey ((paths.lookup endPoint).getD []) (toLowerCase method) operation
      Except.ok (setKey paths endPoint inner)
    | none => Except.ok paths
  else Except.ok paths

/-- Delete a component category when it is present and empty. -/
def cleanupCategory (c : Option (List (String × JsonValue))) :
    Option (List (String × JsonValue)) :=
  match c with
  | some [] => none
  | x => x

/-- Clean the four categories, then delete `components` itself when no key
is left. -/
def cleanupComponents (c : Components) : Option Components :=
  match cleanupCategory c.schemas, cleanupCategory c.responses,
      cleanupCategory c.parameters, cleanupCategory c.securitySchemes with
  | none, none, none, none => none
  | s, r, p, sec => some { schemas := s, responses := r, parameters := p,
                           securitySchemes := sec }

/-- Source `cleanupOpenAPISpec`: prune empty component categories, an emptied
`components`, and an empty `tags` array. -/
def cleanupOpenAPISpec (spec : OpenAPIDoc) : OpenAPIDoc :=
  { spec with
      components :=
        match spec.components with
        | some c => cleanupComponents c
        | none => none
      tags :=
        match spec.tags with
        | some [] => none
        | t => t }

/-- The whole document generation: initialize `resp`, run the route loop
over the registry snapshot, then clean up. -/
def generate (settings : Settings) (docs : List (String × SwaggerDocNode))
    (nodes : List Node) : Except Unit OpenAPIDoc :=
  match nodes.foldlM (processNode settings.additionalParams docs) ([] : Paths) with
  | .error e => .error e
  | .ok paths => .ok (cleanupOpenAPISpec { initResp settings with paths := paths })

/-- A response body: either the generated document or a JSON error object. -/
inductive Body where
  | apiDoc (d : OpenAPIDoc)
  | json (j : JsonValue)

/-- An HTTP response (status code and body). -/
structure HttpResponse where
  status : Nat
  body : Body

/-- The `/http-api/swagger.json` request handler: the whole generation runs
inside `try`; the `catch` answers 500 with `{"error": "Internal server
error"}`. -/
def swaggerJsonHandler (settings : Settings) (docs : List (String × SwaggerDocNode))
    (nodes : List Node) : HttpResponse :=
  match generate settings docs nodes with
  | .ok d => { status := 200, body := Body.apiDoc d }
  | .error _ =>
    { status := 500
      body := Body.json (JsonValue.obj [("error", JsonValue.str "Internal server error")]) }

/-- Spec-side notion: a node counts as a documented route when it is an
`http in` node with a truthy `swaggerDoc` reference that resolves in the
registry. -/
def isDocumented (docs : List (String × SwaggerDocNode)) (node : Node) : Bool :=
  node.type == "http in" && truthyStr node.swaggerDoc
    && (docs.lookup (node.swaggerDoc.getD "")).isSome

/-- Spec-side notion: a component category that is absent or an empty
mapping. -/
def catEmpty (c : Option (List (String × JsonValue))) : Prop :=
  c = none ∨ c = some []


/-- C5: a parameter spec with `type: "array"`, `items: {type: "string"}`,
`collectionFormat: "multi"` and no explicit schema produces
`schema: {type: "array", items: {type: "string"}}`, `style: "form"`,
`explode: true`; in general, when no explicit schema is given, the type is
`"array"` and a non-empty collection format is present, the style follows
the fixed mapping csv→simple, ssv→spaceDelimited, tsv→pipeDelimited,
pipes→pipeDelimited, multi→form (anything else→simple), and `explode` is
`true` exactly when the collection format is `"multi"`. -/
theorem c5_collection_format_styles :
    (∀ p : ParameterSpec, p.schema = none → p.type = some "array" →
      p.format = none → p.items = some (JsonValue.obj [("type", JsonValue.str "string")]) →
      p.collectionFormat = some "multi" →
      (buildParamDef p).schema = some (JsonValue.obj
        [("type", JsonValue.str "array"),
         ("items", JsonValue.obj [("type", JsonValue.str "string")])])
      ∧ (buildParamDef p).style = some "form"
      ∧ (buildParamDef p).explode = some true)
    ∧ (∀ (p : ParameterSpec) (cf : String), p.schema = none → p.type = some "array" →
        p.collectionFormat = some cf → cf ≠ "" →
        (buildParamDef p).style = some (getStyleFromCollectionFormat cf)
        ∧ (buildParamDef p).explode = some (cf == "multi"))
    ∧ getStyleFromCollectionFormat "csv" = "simple"
    ∧ getStyleFromCollectionFormat "ssv" = "spaceDelimited"
    ∧ getStyleFromCollectionFormat "tsv" = "pipeDelimited"
    ∧ getStyleFromCollectionFormat "pipes" = "pipeDelimited"
    ∧ getStyleFromCollectionFormat "multi" = "form"
    ∧ (∀ cf : String, cf ∉ (["csv", "ssv", "tsv", "pipes", "multi"] : List String) →
        getStyleFromCollectionFormat cf = "simple") := by
  refine ⟨?_, ?_, rfl, rfl, rfl, rfl, rfl, ?_⟩
  · intro p h₁ h₂ h₃ h₄ h₅
    simp [buildParamDef, h₁, h₂, h₃, h₄, h₅, truthyStr, jsTruthy,
      getStyleFromCollectionFormat]
  · intro p cf h₁ h₂ h₃ h₄
    simp [buildParamDef, h₁, h₂, h₃, truthyStr, h₄]
  · intro cf h
    simp only [List.mem_cons, List.not_mem_nil, or_false, not_or] at h
    obtain ⟨h₁, h₂, h₃, h₄, h₅⟩ := h
    simp [getStyleFromCollectionFormat, h₁, h₂, h₃, h₄, h₅]

/-- C5 witness: the general part of `c5_collection_format_styles` applied to
a concrete parameter spec. -/
theorem c5_collection_format_styles_witness :
    (buildParamDef
      { name := "ids", in_ := "query", required := some true, description := none,
        schema := none, type := some "array", format := none,
        items := some (JsonValue.obj [("type", JsonValue.str "string")]),
        collectionFormat := some "multi" }).style = some "form" := by
  have h := c5_collection_format_styles.1
    { name := "ids", in_ := "query", required := some true, description := none,
      schema := none, type := some "array", format := none,
      items := some (JsonValue.obj [("type", JsonValue.str "string")]),
      collectionFormat := some "multi" } rfl rfl rfl rfl rfl
  exact h.2.1

/-- C9: the emitted response description uses a falsiness fallback (a present
but empty description becomes "No description"), unlike the operation
summary, where a present but empty summary is preserved. -/
theorem c9_response_description_falsiness :
    (∀ r : ResponseSpec, r.description = some "" ∨ r.description = none →
      (buildResponse r).description = "No description")
    ∧ (∀ (r : ResponseSpec) (d : String), r.description = some d → d ≠ "" →
      (buildResponse r).description = d)
    ∧ (∀ (ap : List ParameterSpec) (nm : Option String) (m ep : String)
        (dn : SwaggerDocNode), dn.summary = some "" →
      (buildOperation ap nm m ep dn).summary = "") := by
  refine ⟨?_, ?_, ?_⟩
  · rintro r (h | h) <;> simp [buildResponse, jsOrString, h]
  · intro r d h hne
    simp [buildResponse, jsOrString, h, hne]
  · intro ap nm m ep dn h
    simp [buildOperation, h]

/-- C9 witness: `c9_response_description_falsiness` applied to a response
spec whose description is present but empty, and to a documentation record
whose summary is present but empty. -/
theorem c9_response_description_falsiness_witness :
    (buildResponse { description := some "", schema := none }).description
      = "No description"
    ∧ (buildOperation [] none "get" "/x"
        { summary := some "", description := none, tags := none, deprecated := none,
          parameters := some [], requestBody := none, responses := some [] }).summary
      = "" := by
  refine ⟨?_, ?_⟩
  · exact c9_response_description_falsiness.1
      { description := some "", schema := none } (Or.inl rfl)
  · exact c9_response_description_falsiness.2.2 [] none "get" "/x"
      { summary := some "", description := none, tags := none, deprecated := none,
        parameters := some [], requestBody := none, responses := some [] } rfl

/-- C4: a documented route whose responses mapping is absent or empty gets
exactly the single synthesized response
`{"200": {description: "Successful response"}}`; when at least one response
is present, the processed responses are emitted and the fallback is not
applied. -/
theorem c4_responses_fallback :
    ∀ (ap : List ParameterSpec) (nm : Option String) (m ep : String)
      (dn : SwaggerDocNode),
      (dn.responses = none ∨ dn.responses = some [] →
        (buildOperation ap nm m ep dn).responses
          = [("200", { description := "Successful response", content := none })])
      ∧ (∀ rs, dn.responses = some rs → rs ≠ [] →
        (buildOperation ap nm m ep dn).responses
          = rs.map (fun p => (p.1, buildResponse p.2))) := by
  intro ap nm m ep dn
  refine ⟨?_, ?_⟩
  · rintro (h | h) <;> simp [buildOperation, h]
  · intro rs h hne
    cases rs with
    | nil => exact absurd rfl hne
    | cons a as => simp [buildOperation, h]

/-- C4 witness: `c4_responses_fallback` applied to a record with empty
responses and to a record with one response. -/
theorem c4_responses_fallback_witness :
    (buildOperation [] none "get" "/x"
      { summary := none, description := none, tags := none, deprecated := none,
        parameters := some [], requestBody := none, responses := some [] }).responses
      = [("200", { description := "Successful response", content := none })]
    ∧ (buildOperation [] none "get" "/x"
      { summary := none, description := none, tags := none, deprecated := none,
        parameters := some [], requestBody := none,
        responses := some [("200", { description := some "ok", schema := none })]
      }).responses
      = [("200", { description := "ok", content := none })] := by
  refine ⟨?_, ?_⟩
  · exact (c4_responses_fallback [] none "get" "/x"
      { summary := none, description := none, tags := none, deprecated := none,
        parameters := some [], requestBody := none, responses := some [] }).1
      (Or.inr rfl)
  · have h := (c4_responses_fallback [] none "get" "/x"
      { summary := none, description := none, tags := none, deprecated := none,
        parameters := some [], requestBody := none,
        responses := some [("200", { description := some "ok", schema := none })] }).2
      [("200", { description := some "ok", schema := none })] rfl (by simp)
    rw [h]
    simp [buildResponse, jsOrString]

/-- C8: the handler answers either 200 with the completely generated
document, or — whenever anything in the generation throws — 500 with exactly
the body `{"error": "Internal server error"}`; there is no partial output. -/
theorem c8_error_handling :
    ∀ (settings : Settings) (docs : List (String × SwaggerDocNode))
      (nodes : List Node),
      (∃ d, generate settings docs nodes = .ok d
        ∧ swaggerJsonHandler settings docs nodes
            = { status := 200, body := Body.apiDoc d })
      ∨ (generate settings docs nodes = .error ()
        ∧ swaggerJsonHandler settings docs nodes
            = { status := 500,
                body := Body.json
                  (JsonValue.obj [("error", JsonValue.str "Internal server error")]) }) := by
  intro settings docs nodes
  cases h : generate settings docs nodes with
  | ok d => exact Or.inl ⟨d, rfl, by simp [swaggerJsonHandler, h]⟩
  | error e => exact Or.inr ⟨by simp [h], by simp [swaggerJsonHandler, h]⟩

/-- C7: with a non-trivial `httpNodeRoot` configured, every server of the
(possibly overridden) servers list has one trailing slash stripped from its
url and the prefix appended; in particular `"/api"` turns the default
`"http://localhost:1880/"` into `"http://localhost:1880/api"`. -/
theorem c7_server_url_adjustment :
    (∀ (settings : Settings) (root : String), settings.httpNodeRoot = some root →
      root ≠ "" → root ≠ "/" →
      (initResp settings).servers
        = (mergeTemplate settings.template).servers.map (fun server =>
            { server with url := replaceTrailingSlash server.url ++ root }))
    ∧ (initResp { defaultSettings with httpNodeRoot := some "/api" }).servers
        = [{ url := "http://localhost:1880/api", description := "Local server" }] := by
  refine ⟨?_, ?_⟩
  · intro settings root h hne hslash
    simp [initResp, h, hne, hslash]
  · show (initResp { defaultSettings with httpNodeRoot := some "/api" }).servers = _
    simp +decide [initResp, defaultSettings, mergeTemplate, emptyTemplate,
      DEFAULT_TEMPLATE, replaceTrailingSlash, String.data]

/-- C7 witness: `c7_server_url_adjustment` applied to settings with a server
override and `httpNodeRoot = "/v2"`. -/
theorem c7_server_url_adjustment_witness :
    (initResp
      { httpNodeRoot := some "/v2"
        template := { emptyTemplate with
          servers := some [{ url := "https://example.test/", description := "prod" }] }
        additionalParams := [] }).servers
      = [{ url := "https://example.test/v2", description := "prod" }] := by
  have h := c7_server_url_adjustment.1
    { httpNodeRoot := some "/v2"
      template := { emptyTemplate with
        servers := some [{ url := "https://example.test/", description := "prod" }] }
      additionalParams := [] }
    "/v2" rfl (by decide) (by decide)
  rw [h]
  simp +decide [mergeTemplate, emptyTemplate, replaceTrailingSlash, String.data]

theorem cleanupCategory_eq_none {c : Option (List (String × JsonValue))} :
    cleanupCategory c = none ↔ catEmpty c := by
  rcases c with _ | (_ | ⟨x, xs⟩) <;> simp [cleanupCategory, catEmpty]

theorem cleanupCategory_some_of_ne_nil {xs : List (String × JsonValue)}
    (h : xs ≠ []) : cleanupCategory (some xs) = some xs := by
  cases xs with
  | nil => exact absurd rfl h
  | cons x xs => rfl

theorem cleanupComponents_eq_none {c : Components} :
    cleanupComponents c = none ↔
      catEmpty c.schemas ∧ catEmpty c.responses ∧ catEmpty c.parameters
        ∧ catEmpty c.securitySchemes := by
  obtain ⟨s, r, p, sec⟩ := c
  rcases s with _ | (_ | ⟨a, as⟩) <;> rcases r with _ | (_ | ⟨b, bs⟩) <;>
    rcases p with _ | (_ | ⟨e, es⟩) <;> rcases sec with _ | (_ | ⟨f, fs⟩) <;>
    simp [cleanupComponents, cleanupCategory, catEmpty]

theorem cleanupComponents_fields {c c' : Components}
    (h : cleanupComponents c = some c') :
    c' = { schemas := cleanupCategory c.schemas,
           responses := cleanupCategory c.responses,
           parameters := cleanupCategory c.parameters,
           securitySchemes := cleanupCategory c.securitySchemes } := by
  obtain ⟨s, r, p, sec⟩ := c
  rcases s with _ | (_ | ⟨a, as⟩) <;> rcases r with _ | (_ | ⟨b, bs⟩) <;>
    rcases p with _ | (_ | ⟨e, es⟩) <;> rcases sec with _ | (_ | ⟨f, fs⟩) <;>
    simp_all [cleanupComponents, cleanupCategory]

/-- C10: the cleanup pass only deletes keys — `openapi`, `info`, `servers`
and `paths` are untouched; `tags` is removed exactly when absent or empty
and is otherwise unchanged; `components` is removed exactly when absent or
left with no category; a category is removed exactly when it is an empty
mapping and a non-empty category is passed through unchanged. -/
theorem c10_cleanup_only_deletes :
    ∀ d : OpenAPIDoc,
      (cleanupOpenAPISpec d).openapi = d.openapi
      ∧ (cleanupOpenAPISpec d).info = d.info
      ∧ (cleanupOpenAPISpec d).servers = d.servers
      ∧ (cleanupOpenAPISpec d).paths = d.paths
      ∧ ((cleanupOpenAPISpec d).tags = none ↔ d.tags = none ∨ d.tags = some [])
      ∧ (∀ ts, d.tags = some ts → ts ≠ [] → (cleanupOpenAPISpec d).tags = some ts)
      ∧ ((cleanupOpenAPISpec d).components = none ↔
          (d.components = none ∨ ∃ c, d.components = some c ∧ catEmpty c.schemas
            ∧ catEmpty c.responses ∧ catEmpty c.parameters ∧ catEmpty c.securitySchemes))
      ∧ (∀ c c', d.components = some c → (cleanupOpenAPISpec d).components = some c' →
          (catEmpty c.schemas → c'.schemas = none)
          ∧ (∀ xs, c.schemas = some xs → xs ≠ [] → c'.schemas = some xs)
          ∧ (catEmpty c.responses → c'.responses = none)
          ∧ (∀ xs, c.responses = some xs → xs ≠ [] → c'.responses = some xs)
          ∧ (catEmpty c.parameters → c'.parameters = none)
          ∧ (∀ xs, c.parameters = some xs → xs ≠ [] → c'.parameters = some xs)
          ∧ (catEmpty c.securitySchemes → c'.securitySchemes = none)
          ∧ (∀ xs, c.securitySchemes = some xs → xs ≠ [] →
              c'.securitySchemes = some xs)) := by
  intro d
  refine ⟨rfl, rfl, rfl, rfl, ?_, ?_, ?_, ?_⟩
  · rcases h : d.tags with _ | (_ | ⟨t, ts⟩) <;> simp [cleanupOpenAPISpec, h]
  · intro ts h hne
    cases ts with
    | nil => exact absurd rfl hne
    | cons t ts => simp [cleanupOpenAPISpec, h]
  · rcases h : d.components with _ | c
    · simp [cleanupOpenAPISpec, h]
    · simp only [cleanupOpenAPISpec, h]
      constructor
      · intro hc
        exact Or.inr ⟨c, rfl, cleanupComponents_eq_none.mp hc⟩
      · rintro (h' | ⟨c₀, hc₀, he⟩)
        · exact absurd h' (by simp)
        · injection hc₀ with hc₀
          subst hc₀
          exact cleanupComponents_eq_none.mpr he
  · intro c c' hc hc'
    simp only [cleanupOpenAPISpec, hc] at hc'
    have hf := cleanupComponents_fields hc'
    subst hf
    refine ⟨?_, ?_, ?_, ?_, ?_, ?_, ?_, ?_⟩
    · intro he; exact cleanupCategory_eq_none.mpr he
    · intro xs hxs hne; rw [hxs]; exact cleanupCategory_some_of_ne_nil hne
    · intro he; exact cleanupCategory_eq_none.mpr he
    · intro xs hxs hne; rw [hxs]; exact cleanupCategory_some_of_ne_nil hne
    · intro he; exact cleanupCategory_eq_none.mpr he
    · intro xs hxs hne; rw [hxs]; exact cleanupCategory_some_of_ne_nil hne
    · intro he; exact cleanupCategory_eq_none.mpr he
    · intro xs hxs hne; rw [hxs]; exact cleanupCategory_some_of_ne_nil hne

/-- C10 witness: `c10_cleanup_only_deletes` applied to a concrete document
with one empty and one non-empty category. -/
theorem c10_cleanup_only_deletes_witness :
    (cleanupOpenAPISpec
      { openapi := "3.0.0", info := DEFAULT_TEMPLATE.info,
        servers := [], paths := [],
        components := some
          { schemas := some [("A", JsonValue.null)], responses := some [],
            parameters := none, securitySchemes := none },
        tags := some [JsonValue.str "t"] }).tags = some [JsonValue.str "t"] := by
  exact (c10_cleanup_only_deletes _).2.2.2.2.2.1 [JsonValue.str "t"] rfl (by simp)

theorem processNode_undocumented {docs : List (String × SwaggerDocNode)}
    {node : Node} (h : isDocumented docs node = false)
    (ap : List ParameterSpec) (paths : Paths) :
    processNode ap docs paths node = Except.ok paths := by
  unfold processNode
  by_cases h₁ : node.type = "http in" ∧ truthyStr node.swaggerDoc = true
  · rw [if_pos h₁]
    have hl : List.lookup (node.swaggerDoc.getD "") docs = none := by
      cases hl : List.lookup (node.swaggerDoc.getD "") docs with
      | none => rfl
      | some v =>
        have ht : isDocumented docs node = true := by
          simp [isDocumented, h₁.1, h₁.2, hl]
        rw [ht] at h
        exact absurd h (by simp)
    rw [hl]
  · rw [if_neg h₁]

theorem foldlM_processNode_undocumented {docs : List (String × SwaggerDocNode)}
    {nodes : List Node} (h : ∀ node ∈ nodes, isDocumented docs node = false)
    (ap : List ParameterSpec) (paths : Paths) :
    nodes.foldlM (processNode ap docs) paths = Except.ok paths := by
  induction nodes with
  | nil => rfl
  | cons n ns ih =>
    rw [List.foldlM_cons, processNode_undocumented (h n (by simp)) ap paths]
    exact ih (fun node hm => h node (by simp [hm]))

/-- C6: with default settings (no template override, no global parameters,
no http root) and zero documented routes, the generated document is exactly
the default template's `openapi`, `info` and `servers` plus an empty
`paths` mapping, with the `components` and `tags` keys both deleted. -/
theorem c6_zero_documented_routes :
    ∀ (docs : List (String × SwaggerDocNode)) (nodes : List Node),
      (∀ node ∈ nodes, isDocumented docs node = false) →
      generate defaultSettings docs nodes = Except.ok
        { openapi := "3.0.0"
          info := { title := "My Node-RED API", version := "1.0.0",
                    description := "A sample API" }
          servers := [{ url := "http://localhost:1880/", description := "Local server" }]
          paths := []
          components := none
          tags := none } := by
  intro docs nodes h
  unfold generate
  rw [foldlM_processNode_undocumented h]
  rfl

/-- C6 witness: `c6_zero_documented_routes` on a registry containing one
undocumented node. -/
theorem c6_zero_documented_routes_witness :
    generate defaultSettings []
      [{ name := none, type := "http in", method := some "get",
         swaggerDoc := none, url := some "/plain" }]
      = Except.ok
        { openapi := "3.0.0"
          info := { title := "My Node-RED API", version := "1.0.0",
                    description := "A sample API" }
          servers := [{ url := "http://localhost:1880/", description := "Local server" }]
          paths := []
          components := none
          tags := none } := by
  exact c6_zero_documented_routes [] _ (by intro node hm; simp at hm; subst hm; rfl)

/-- C3 counterexample: a route node whose `name` is present but empty and
whose documentation record has no summary gets the method–path summary, not
the (defined) empty name the first-defined-wins claim would give. -/
theorem c3_summary_fallback_counterexample :
    (buildOperation [] (some "") "get" "/x"
      { summary := none, description := none, tags := none, deprecated := none,
        parameters := some [], requestBody := none, responses := some [] }).summary
      = "GET /x"
    ∧ ("GET /x" : String) ≠ "" := by
  exact ⟨rfl, by decide⟩

/-- C3 (amended): the operation summary is the documentation record's
explicit summary when defined (a present-but-empty summary is preserved);
otherwise the route node's `name` when that is defined and non-empty
(JS truthiness, not definedness); otherwise the upper-cased HTTP method, a
space, and the converted endpoint path. -/
theorem c3_summary_fallback :
    ∀ (ap : List ParameterSpec) (name : Option String) (method endPoint : String)
      (dn : SwaggerDocNode),
      (∀ s, dn.summary = some s →
        (buildOperation ap name method endPoint dn).summary = s)
      ∧ (∀ nm, dn.summary = none → name = some nm → nm ≠ "" →
        (buildOperation ap name method endPoint dn).summary = nm)
      ∧ (dn.summary = none → name = none ∨ name = some "" →
        (buildOperation ap name method endPoint dn).summary
          = toUpperCase method ++ " " ++ endPoint) := by
  intro ap name method endPoint dn
  refine ⟨?_, ?_, ?_⟩
  · intro s h
    simp [buildOperation, h]
  · intro nm h hn hne
    simp [buildOperation, h, hn, jsOrString, hne]
  · rintro h (hn | hn) <;> simp [buildOperation, h, hn, jsOrString]

/-- C3 witness: `c3_summary_fallback` applied to a node with a non-empty
name and no explicit summary. -/
theorem c3_summary_fallback_witness :
    (buildOperation [] (some "user lookup") "get" "/users/{id}"
      { summary := none, description := none, tags := none, deprecated := none,
        parameters := some [], requestBody := none, responses := some [] }).summary
      = "user lookup" := by
  exact (c3_summary_fallback [] (some "user lookup") "get" "/users/{id}"
    { summary := none, description := none, tags := none, deprecated := none,
      parameters := some [], requestBody := none, responses := some [] }).2.1
    "user lookup" rfl rfl (by decide)

theorem head_ensureLeadingSlash (p : List Char) :
    (ensureLeadingSlash p).head? = some '/' := by
  unfold ensureLeadingSlash
  split
  · assumption
  · rfl

theorem ensureLeadingSlash_eq_self {l : List Char} (h : l.head? = some '/') :
    ensureLeadingSlash l = l := by
  unfold ensureLeadingSlash
  rw [if_pos h]

theorem ensureLeadingSlash_cases (p : List Char) :
    ensureLeadingSlash p = p ∨ ensureLeadingSlash p = '/' :: p := by
  unfold ensureLeadingSlash
  split
  · exact Or.inl rfl
  · exact Or.inr rfl

/-- C2 counterexample: the composed normalization strips only one trailing
slash per application, so on `"///"` applying it twice gives `"/"` while
applying it once gives `"//"`. -/
theorem c2_normalization_counterexample :
    normalizePath (normalizePath ['/', '/', '/']) ≠ normalizePath ['/', '/', '/']
    ∧ normalizePath ['/', '/', '/'] = ['/', '/']
    ∧ normalizePath ['/', '/'] = ['/'] := by
  refine ⟨by decide, by decide, by decide⟩

/-- C2 (amended):
`stripTerminalSlash(ensureLeadingSlash(p))` is idempotent for every string
`p` that does not end in two (or more) slashes. -/
theorem c2_normalization_idempotent :
    ∀ p : List Char, endsWithDoubleSlash p = false →
      normalizePath (normalizePath p) = normalizePath p := by
  intro p h
  have h' : ¬(p.getLast? = some '/' ∧ p.dropLast.getLast? = some '/') := by
    simpa [endsWithDoubleSlash] using h
  unfold normalizePath
  by_cases hc : 1 < (ensureLeadingSlash p).length
      ∧ (ensureLeadingSlash p).getLast? = some '/'
  · have e₁ : stripTerminalSlash (ensureLeadingSlash p)
        = (ensureLeadingSlash p).dropLast := by
      unfold stripTerminalSlash
      rw [if_pos hc]
    rw [e₁]
    have hhead : (ensureLeadingSlash p).dropLast.head? = some '/' := by
      rw [List.head?_dropLast, if_pos hc.1, head_ensureLeadingSlash]
    rw [ensureLeadingSlash_eq_self hhead]
    unfold stripTerminalSlash
    rw [if_neg ?_]
    rintro ⟨hl₁, hl₂⟩
    apply h'
    rcases ensureLeadingSlash_cases p with he | he
    · rw [he] at hc hl₂
      exact ⟨hc.2, hl₂⟩
    · rw [he] at hc hl₁ hl₂
      cases p with
      | nil => simp at hl₁
      | cons a p' =>
        rw [List.getLast?_cons_cons] at hc
        rw [List.dropLast_cons₂] at hl₁ hl₂
        refine ⟨hc.2, ?_⟩
        cases hd : (a :: p').dropLast with
        | nil => rw [hd] at hl₁; simp at hl₁
        | cons b l =>
          rw [hd, List.getLast?_cons_cons] at hl₂
          exact hl₂
  · have e₁ : stripTerminalSlash (ensureLeadingSlash p) = ensureLeadingSlash p := by
      unfold stripTerminalSlash
      rw [if_neg hc]
    rw [e₁, ensureLeadingSlash_eq_self (head_ensureLeadingSlash p), e₁]

/-- C2 witness: `c2_normalization_idempotent` applied to `"users/"`. -/
theorem c2_normalization_idempotent_witness :
    endsWithDoubleSlash "users/".data = false
    ∧ normalizePath (normalizePath "users/".data) = normalizePath "users/".data :=
  ⟨by decide, c2_normalization_idempotent "users/".data (by decide)⟩

theorem head?_replaceColons : ∀ l : List Char, (replaceColons l).head? = l.head? := by
  intro l
  match l with
  | [] => simp [replaceColons]
  | [c] => simp [replaceColons]
  | c₁ :: c₂ :: rest =>
    simp only [replaceColons]
    split
    · rename_i hcond
      simp [convToSwaggerPath, hcond.1]
    · simp

theorem hasColon_cons_of_ne {a : Char} (h : a ≠ '/') (xs : List Char) :
    hasColonParamMarker (a :: xs) = hasColonParamMarker xs := by
  cases xs with
  | nil => rfl
  | cons b ys =>
    simp only [hasColonParamMarker]
    rw [if_neg (fun hx => h hx.1)]

theorem hasColon_cons_cons_of_ne {b : Char} (h : b ≠ ':') (xs : List Char) :
    hasColonParamMarker ('/' :: b :: xs) = hasColonParamMarker (b :: xs) := by
  simp only [hasColonParamMarker]
  rw [if_neg (fun hx => h hx.2)]

theorem hasColon_append_noslash {w : List Char} (hw : '/' ∉ w) (y : List Char) :
    hasColonParamMarker (w ++ y) = hasColonParamMarker y := by
  induction w with
  | nil => rfl
  | cons a w' ih =>
    have ha : a ≠ '/' := fun e => hw (by simp [e])
    rw [List.cons_append, hasColon_cons_of_ne ha,
      ih (fun hm => hw (by simp [hm]))]

theorem hasColon_true_append {w : List Char} (y : List Char)
    (h : hasColonParamMarker w = true) :
    hasColonParamMarker (w ++ y) = true := by
  induction w with
  | nil => simp [hasColonParamMarker] at h
  | cons a w' ih =>
    cases w' with
    | nil => simp [hasColonParamMarker] at h
    | cons b w'' =>
      rw [List.cons_append, List.cons_append]
      simp only [hasColonParamMarker] at h ⊢
      split at h
      · rename_i hcond
        rw [if_pos hcond]
      · rename_i hcond
        rw [if_neg hcond]
        have := ih h
        rw [List.cons_append] at this
        exact this

theorem hasColon_dropLast {l : List Char}
    (h : hasColonParamMarker l = false) :
    hasColonParamMarker l.dropLast = false := by
  by_cases hnil : l = []
  · subst hnil
    exact h
  · cases hb : hasColonParamMarker l.dropLast with
    | false => rfl
    | true =>
      have ht := hasColon_true_append [l.getLast hnil] hb
      rw [List.dropLast_concat_getLast hnil] at ht
      rw [ht] at h
      cases h

theorem replaceColons_no_colon : ∀ l : List Char,
    hasColonParamMarker (replaceColons l) = false := by
  suffices H : ∀ (n : Nat) (l : List Char), l.length ≤ n →
      hasColonParamMarker (replaceColons l) = false from
    fun l => H l.length l le_rfl
  intro n
  induction n with
  | zero =>
    intro l hl
    have h0 : l = [] := List.length_eq_zero.mp (Nat.le_zero.mp hl)
    subst h0
    simp [replaceColons, hasColonParamMarker]
  | succ n ih =>
    intro l hl
    match l with
    | [] => simp [replaceColons, hasColonParamMarker]
    | [c] => simp [replaceColons, hasColonParamMarker]
    | c₁ :: c₂ :: rest =>
      have hlen : rest.length + 2 ≤ n + 1 := by simpa using hl
      have hdw := (List.dropWhile_sublist (l := rest) (p := wordChar)).length_le
      simp only [replaceColons]
      split
      · rename_i hcond
        simp only [convToSwaggerPath, List.drop_succ_cons, List.drop_zero]
        rw [List.cons_append, List.cons_append]
        rw [hasColon_cons_cons_of_ne (by decide)]
        rw [hasColon_cons_of_ne (by decide)]
        rw [List.append_assoc, List.singleton_append]
        rw [hasColon_append_noslash
          (fun hm => by simpa [wordChar] using List.mem_takeWhile_imp hm)]
        rw [hasColon_cons_of_ne (by decide)]
        exact ih _ (by omega)
      · rename_i hcond
        by_cases hc₁ : c₁ = '/'
        · subst hc₁
          have h₂ : c₂ ≠ ':' := fun he => hcond ⟨rfl, he⟩
          have hh : (replaceColons (c₂ :: rest)).head? = some c₂ := by
            rw [head?_replaceColons]
            rfl
          have hrec := ih (c₂ :: rest) (by simp only [List.length_cons]; omega)
          cases hr : replaceColons (c₂ :: rest) with
          | nil => rfl
          | cons b t =>
            rw [hr] at hh
            have hb : b ≠ ':' := by
              have : b = c₂ := by injection hh
              rw [this]
              exact h₂
            rw [hasColon_cons_cons_of_ne hb, ← hr]
            exact hrec
        · rw [hasColon_cons_of_ne hc₁]
          exact ih (c₂ :: rest) (by simp only [List.length_cons]; omega)

theorem endPoint_no_colon {url : List Char} (h : url.head? ≠ some ':') :
    hasColonParamMarker (endPointOf url) = false := by
  have h₁ : hasColonParamMarker (ensureLeadingSlash (replaceColons url)) = false := by
    rcases ensureLeadingSlash_cases (replaceColons url) with he | he
    · rw [he]
      exact replaceColons_no_colon url
    · rw [he]
      cases hr : replaceColons url with
      | nil => rfl
      | cons b t =>
        have hb : b ≠ ':' := by
          have hh := head?_replaceColons url
          rw [hr] at hh
          intro he'
          subst he'
          exact h hh.symm
        rw [hasColon_cons_cons_of_ne hb]
        have := replaceColons_no_colon url
        rw [hr] at this
        exact this
  unfold endPointOf stripTerminalSlash
  split
  · exact hasColon_dropLast h₁
  · exact h₁

theorem takeWhile_append_slash (l : List Char) :
    (l ++ ['/']).takeWhile wordChar = l.takeWhile wordChar := by
  induction l with
  | nil => simp [List.takeWhile_cons_of_neg (by decide : ¬ wordChar '/' = true)]
  | cons a l ih =>
    by_cases ha : wordChar a
    · rw [List.cons_append, List.takeWhile_cons_of_pos ha,
        List.takeWhile_cons_of_pos ha, ih]
    · rw [List.cons_append, List.takeWhile_cons_of_neg ha,
        List.takeWhile_cons_of_neg ha]

theorem dropWhile_append_slash (l : List Char) :
    (l ++ ['/']).dropWhile wordChar = l.dropWhile wordChar ++ ['/'] := by
  induction l with
  | nil => simp [List.dropWhile_cons_of_neg (by decide : ¬ wordChar '/' = true)]
  | cons a l ih =>
    by_cases ha : wordChar a
    · rw [List.cons_append, List.dropWhile_cons_of_pos ha,
        List.dropWhile_cons_of_pos ha, ih]
    · rw [List.cons_append, List.dropWhile_cons_of_neg ha,
        List.dropWhile_cons_of_neg ha, List.cons_append]

theorem takeWhile_word_append {w : List Char} (hw : ∀ c ∈ w, wordChar c = true)
    {b : Char} (hb : wordChar b = false) (R : List Char) :
    (w ++ b :: R).takeWhile wordChar = w := by
  induction w with
  | nil =>
    rw [List.nil_append,
      List.takeWhile_cons_of_neg (show ¬ wordChar b = true by simp [hb])]
  | cons a w' ih =>
    rw [List.cons_append, List.takeWhile_cons_of_pos (hw a (by simp)),
      ih (fun c hm => hw c (by simp [hm]))]

theorem dropWhile_word_append {w : List Char} (hw : ∀ c ∈ w, wordChar c = true)
    {b : Char} (hb : wordChar b = false) (R : List Char) :
    (w ++ b :: R).dropWhile wordChar = b :: R := by
  induction w with
  | nil =>
    rw [List.nil_append,
      List.dropWhile_cons_of_neg (show ¬ wordChar b = true by simp [hb])]
  | cons a w' ih =>
    rw [List.cons_append, List.dropWhile_cons_of_pos (hw a (by simp)),
      ih (fun c hm => hw c (by simp [hm]))]

theorem braceParams_cons_of {c : Char} {y : List Char}
    (h : c ≠ '/' ∨ y.head? ≠ some '{') :
    braceParams (c :: y) = braceParams y := by
  cases y with
  | nil => simp [braceParams]
  | cons b t =>
    have hcond : ¬(c = '/' ∧ b = '{') := by
      rcases h with h | h
      · exact fun hx => h hx.1
      · exact fun hx => h (by simp [hx.2])
    simp only [braceParams]
    rw [if_neg (fun hx => hcond ⟨hx.1, hx.2.1⟩), if_neg hcond]

theorem braceParams_param {rest rest₂ : List Char}
    (hd : rest.dropWhile wordChar = '}' :: rest₂) :
    braceParams ('/' :: '{' :: rest)
      = rest.takeWhile wordChar :: braceParams rest₂ := by
  simp only [braceParams]
  rw [hd]
  simp

theorem braceParams_noparam {rest : List Char}
    (hd : (rest.dropWhile wordChar).head? ≠ some '}') :
    braceParams ('/' :: '{' :: rest) = braceParams rest := by
  simp only [braceParams]
  rw [if_neg (fun hx => hd hx.2.2), if_pos (by simp)]

theorem braceParams_append_slash : ∀ l : List Char,
    braceParams (l ++ ['/']) = braceParams l := by
  suffices H : ∀ (n : Nat) (l : List Char), l.length ≤ n →
      braceParams (l ++ ['/']) = braceParams l from fun l => H l.length l le_rfl
  intro n
  induction n with
  | zero =>
    intro l hl
    have h0 : l = [] := List.length_eq_zero.mp (Nat.le_zero.mp hl)
    subst h0
    simp [braceParams]
  | succ n ih =>
    intro l hl
    match l with
    | [] => simp [braceParams]
    | [c] =>
      simp only [List.cons_append, List.nil_append]
      rw [braceParams_cons_of (Or.inr (by decide))]
      simp [braceParams]
    | c₁ :: c₂ :: rest =>
      have hlen : rest.length + 2 ≤ n + 1 := by simpa using hl
      have hdw := (List.dropWhile_sublist (l := rest) (p := wordChar)).length_le
      simp only [List.cons_append]
      by_cases h₁ : c₁ = '/' ∧ c₂ = '{'
      · obtain ⟨e₁, e₂⟩ := h₁
        subst e₁
        subst e₂
        cases hd : rest.dropWhile wordChar with
        | nil =>
          have hds : (rest ++ ['/']).dropWhile wordChar = ['/'] := by
            rw [dropWhile_append_slash, hd]
            rfl
          rw [braceParams_noparam (by rw [hds]; decide),
            braceParams_noparam (by rw [hd]; decide)]
          exact ih rest (by omega)
        | cons d t =>
          by_cases hdd : d = '}'
          · subst hdd
            have hds : (rest ++ ['/']).dropWhile wordChar = '}' :: (t ++ ['/']) := by
              rw [dropWhile_append_slash, hd]
              rfl
            rw [braceParams_param hds, braceParams_param hd, takeWhile_append_slash]
            have ht : t.length ≤ n := by
              rw [hd] at hdw
              simp only [List.length_cons] at hdw
              omega
            rw [ih t ht]
          · have hds : (rest ++ ['/']).dropWhile wordChar = d :: (t ++ ['/']) := by
              rw [dropWhile_append_slash, hd]
              rfl
            rw [braceParams_noparam (by rw [hds]; simp [hdd]),
              braceParams_noparam (by rw [hd]; simp [hdd])]
            exact ih rest (by omega)
      · have hor : c₁ ≠ '/' ∨ (c₂ :: (rest ++ ['/'])).head? ≠ some '{' := by
          by_cases hc : c₁ = '/'
          · right
            intro hh
            exact h₁ ⟨hc, by simpa using hh⟩
          · exact Or.inl hc
        have hor₂ : c₁ ≠ '/' ∨ (c₂ :: rest).head? ≠ some '{' := by
          by_cases hc : c₁ = '/'
          · right
            intro hh
            exact h₁ ⟨hc, by simpa using hh⟩
          · exact Or.inl hc
        rw [braceParams_cons_of hor, braceParams_cons_of hor₂, ← List.cons_append]
        exact ih (c₂ :: rest) (by simp only [List.length_cons]; omega)

theorem braceParams_replaceColons : ∀ l : List Char, '{' ∉ l →
    braceParams (replaceColons l) = colonParams l := by
  suffices H : ∀ (n : Nat) (l : List Char), l.length ≤ n → '{' ∉ l →
      braceParams (replaceColons l) = colonParams l from fun l => H l.length l le_rfl
  intro n
  induction n with
  | zero =>
    intro l hl _
    have h0 : l = [] := List.length_eq_zero.mp (Nat.le_zero.mp hl)
    subst h0
    simp [replaceColons, braceParams, colonParams]
  | succ n ih =>
    intro l hl hmem
    match l with
    | [] => simp [replaceColons, braceParams, colonParams]
    | [c] => simp [replaceColons, braceParams, colonParams]
    | c₁ :: c₂ :: rest =>
      have hlen : rest.length + 2 ≤ n + 1 := by simpa using hl
      have hdw := (List.dropWhile_sublist (l := rest) (p := wordChar)).length_le
      simp only [replaceColons, colonParams]
      by_cases h₁ : c₁ = '/' ∧ c₂ = ':'
      · rw [if_pos h₁, if_pos h₁]
        simp only [convToSwaggerPath, List.drop_succ_cons, List.drop_zero]
        rw [List.cons_append, List.cons_append, List.append_assoc,
          List.singleton_append]
        have hw : ∀ c ∈ rest.takeWhile wordChar, wordChar c = true :=
          fun c hm => List.mem_takeWhile_imp hm
        have hd := dropWhile_word_append hw (by decide : wordChar '}' = false)
          (replaceColons (rest.dropWhile wordChar))
        rw [braceParams_param hd, takeWhile_word_append hw (by decide)]
        congr 1
        apply ih _ (by omega)
        intro hm
        exact hmem (by
          have hr := (List.dropWhile_sublist (l := rest) (p := wordChar)).subset hm
          simp [hr])
      · rw [if_neg h₁, if_neg h₁]
        have hc₂ : c₂ ≠ '{' := fun he => hmem (by simp [he])
        have hor : c₁ ≠ '/' ∨ (replaceColons (c₂ :: rest)).head? ≠ some '{' := by
          right
          rw [head?_replaceColons]
          simp [hc₂]
        rw [braceParams_cons_of hor]
        exact ih (c₂ :: rest) (by simp only [List.length_cons]; omega)
          (fun hm => hmem (by simp [hm]))

theorem braceParams_endPoint {url : List Char} (hmem : '{' ∉ url) :
    braceParams (endPointOf url) = colonParams url := by
  have h₁ : braceParams (ensureLeadingSlash (replaceColons url))
      = colonParams url := by
    rcases ensureLeadingSlash_cases (replaceColons url) with he | he
    · rw [he]
      exact braceParams_replaceColons url hmem
    · rw [he]
      have hor : ('/' : Char) ≠ '/' ∨ (replaceColons url).head? ≠ some '{' := by
        right
        rw [head?_replaceColons]
        cases url with
        | nil => simp
        | cons a t =>
          have ha : a ≠ '{' := fun e => hmem (by simp [e])
          simp [ha]
      rw [braceParams_cons_of hor]
      exact braceParams_replaceColons url hmem
  unfold endPointOf stripTerminalSlash
  split
  · rename_i hcond
    obtain ⟨ys, hys⟩ := List.getLast?_eq_some_iff.mp hcond.2
    rw [hys, List.dropLast_concat]
    rw [hys, braceParams_append_slash ys] at h₁
    exact h₁
  · exact h₁

/-- C1 counterexample: for the URL template `":b/{a}"` the output path key
is `"/:b/{a}"`, which still contains the colon parameter syntax, and its
brace-parameter list `["a"]` differs from the template's (empty)
colon-parameter list. -/
theorem c1_path_conversion_counterexample :
    endPointOf ":b/{a}".data = "/:b/{a}".data
    ∧ hasColonParamMarker (endPointOf ":b/{a}".data) = true
    ∧ braceParams (endPointOf ":b/{a}".data) ≠ colonParams ":b/{a}".data := by
  refine ⟨?_, ?_, ?_⟩ <;>
    simp +decide [endPointOf, replaceColons, ensureLeadingSlash,
      stripTerminalSlash, hasColonParamMarker, braceParams, colonParams,
      wordChar, convToSwaggerPath, String.data]

/-- C1 (amended): for every URL template that does not begin with `':'`, the
output path key contains no colon-parameter syntax; and for every URL
template containing no `'{'`, each colon segment `/:name` is replaced by
`/{name}`, so the output path key has exactly the template's
colon-parameters as brace-parameters, with the same names in the same
order. -/
theorem c1_path_conversion :
    ∀ url : List Char,
      (url.head? ≠ some ':' → hasColonParamMarker (endPointOf url) = false)
      ∧ ('{' ∉ url → braceParams (endPointOf url) = colonParams url) := by
  intro url
  exact ⟨fun h => endPoint_no_colon h, fun h => braceParams_endPoint h⟩

/-- C1 witness: `c1_path_conversion` applied to the template
`"/users/:id"`. -/
theorem c1_path_conversion_witness :
    hasColonParamMarker (endPointOf "/users/:id".data) = false
    ∧ braceParams (endPointOf "/users/:id".data) = colonParams "/users/:id".data :=
  ⟨(c1_path_conversion "/users/:id".data).1 (by decide),
   (c1_path_conversion "/users/:id".data).2 (by decide)⟩

end Swagger
